import Mathlib

/-!
# Verification of the mitm_addon traffic-interception core

This development gives a shallow embedding, in Lean, of the state-mutating
core of the repository's `mitm_addon.py`: the scenario registry
(`_register_scenario`), the per-scenario phase-file persistence
(`_truncate_if_first_seen`, `_dump_pair_to_phase`), the production pipeline
(`_flush_group`), the transaction batching engine (`_record_sendraw`,
`_produce_if_quiet`), and the pause/resume coordinator
(`_signal_cleanup_pause`, `_control_watcher`).

Modelling conventions:
* Python strings become Lean `String`s; character-level operations
  (`strip`, `lower`, the sanitizer's `replace` chains, the
  `-benchmark-gas-value_` regex) are reimplemented over `List Char`.
* Files become lists of lines (each line stored without its trailing
  newline, exactly as written by `_append_line` / `_overwrite_with_lines`).
  A file keyed by a phase and a scenario name stands for
  `<phase>/<index>/<scenario>.txt`; the index is a stable function of the
  name (proved for the registry below), so the (phase, scenario) key
  identifies the file.
* Fallible Engine API calls (`_engine`) are modelled by an oracle record
  saying which of the three calls succeeds; a raise propagates to the
  `except` clause at the bottom of `_flush_group`, which swallows it, so
  the state mutations performed before the failing call persist.
* Wall-clock timestamps become abstract `Nat` ticks (milliseconds); the
  0.1 s quiet period becomes 100 ticks.
-/

/-- Python `str.strip()` whitespace set: space, tab, newline, carriage
return, vertical tab, form feed. -/
def pySpace (c : Char) : Bool :=
  c = ' ' || c = '\t' || c = '\n' || c = '\r' || c = '\x0b' || c = '\x0c'

/-- Python `str.strip()` on a character list: drop leading and trailing
whitespace. -/
def pyStrip (cs : List Char) : List Char :=
  ((cs.dropWhile pySpace).reverse.dropWhile pySpace).reverse

/-- Python `str.strip()` on a string. -/
def pyStripStr (s : String) : String :=
  String.mk (pyStrip s.toList)

/-- Python `str.lower()` (the strings this program lowers are ASCII phase
names, for which `Char.toLower` agrees with Python). -/
def pyLower (s : String) : String :=
  String.mk (s.toList.map Char.toLower)

/-- `_sanitize_filename_component`: neutralize path separators (`os.sep`
is `/` on the target platform, plus the explicit `\` and `/` replacements),
drop NUL, turn `\n`, `\r`, `\t` into spaces, strip, and fall back to
`"unknown"` on an empty result. -/
def sanitizeFilenameComponent (s : String) : String :=
  let cs := s.toList.map (fun c => if c = '/' || c = '\\' then '_' else c)
  let cs := cs.filter (fun c => c ≠ '\x00')
  let cs := cs.map (fun c => if c = '\n' || c = '\r' || c = '\t' then ' ' else c)
  let cs := pyStrip cs
  if cs = [] then "unknown" else String.mk cs

/-- Does `p` occur literally at the head of `l`? -/
def startsWithChars : List Char → List Char → Bool
  | [], _ => true
  | _ :: _, [] => false
  | p :: ps, c :: cs => p = c && startsWithChars ps cs

/-- The literal part of the pattern `-benchmark-gas-value_([^-]+)` from
`_scenario_name`. -/
def gasMarker : List Char := "-benchmark-gas-value_".toList

/-- Leftmost match of the regex `-benchmark-gas-value_([^-]+)` : returns
`(before, value-run, after)` for the first position where the literal
marker is followed by at least one non-hyphen character (the greedy
`[^-]+` takes the maximal such run), or `none` when the pattern does not
occur. -/
def splitGasMarker : List Char → Option (List Char × List Char × List Char)
  | [] => none
  | c :: rest =>
    if startsWithChars gasMarker (c :: rest) then
      let tail := (c :: rest).drop gasMarker.length
      let run := tail.takeWhile (fun x => x ≠ '-')
      if run = [] then
        match splitGasMarker rest with
        | some (b, v, a) => some (c :: b, v, a)
        | none => none
      else some ([], run, tail.drop run.length)
    else
      match splitGasMarker rest with
      | some (b, v, a) => some (c :: b, v, a)
      | none => none

/-- `_scenario_name(file_base, test_name)`: sanitize both components,
rewrite the first `-benchmark-gas-value_<v>` occurrence in the test name
to `-benchmark`, and append the sanitized `<v>` as a `_<v>` suffix. -/
def scenarioName (fileBase testName : String) : String :=
  let fb := sanitizeFilenameComponent fileBase
  let tn := sanitizeFilenameComponent testName
  match splitGasMarker tn.toList with
  | none => fb ++ "__" ++ tn
  | some (before, run, after) =>
    let value := sanitizeFilenameComponent (String.mk run)
    let tn2 := String.mk (before ++ "-benchmark".toList ++ after)
    let suffix := if value = "" then "" else "_" ++ value
    fb ++ "__" ++ tn2 ++ suffix

/-- Python `x or default` for an optional string: `None` and the empty
string are falsy. -/
def pyOrStr (v : Option String) (default : String) : String :=
  match v with
  | none => default
  | some s => if s = "" then default else s

/-! ## Scenario registry (`_register_scenario`)

`_SCENARIO_INDEX` is an insertion-ordered mapping from scenario names to
indices; `_SCENARIO_SEQUENCE` mirrors it.  We model the mapping as the
insertion-ordered association list itself (the dictionary's length is the
list's length).  The order-file rewrite (`_write_scenario_order`) is a
log-and-continue side effect with no bearing on the returned index. -/

/-- The registry state: `(name, index)` pairs in insertion order. -/
abbrev RegState := List (String × Nat)

/-- First binding of `n`, mirroring the dictionary lookup
`_SCENARIO_INDEX.get(name)`. -/
def lookupName (n : String) : RegState → Option Nat
  | [] => none
  | (m, i) :: rest => if m = n then some i else lookupName n rest

/-- `_register_scenario(name)`: return the existing index, or assign
`len + 1` and append. -/
def registerScenario (name : String) (s : RegState) : Nat × RegState :=
  match lookupName name s with
  | some i => (i, s)
  | none => (List.length s + 1, s ++ [(name, List.length s + 1)])

/-- Run a whole sequence of registrations from the empty registry. -/
def regAll (names : List String) : RegState :=
  names.foldl (fun s n => (registerScenario n s).2) []

/-- Names in first-seen order, accumulated against already-seen `acc`. -/
def firstSeenAcc (acc : List String) : List String → List String
  | [] => acc
  | n :: rest =>
    if n ∈ acc then firstSeenAcc acc rest else firstSeenAcc (acc ++ [n]) rest

/-- Distinct names in order of first sight. -/
def firstSeen (names : List String) : List String := firstSeenAcc [] names

/-- Pair each name with its 1-based position, starting at `k`. -/
def enumFrom1 (k : Nat) : List String → List (String × Nat)
  | [] => []
  | n :: rest => (n, k) :: enumFrom1 (k + 1) rest

/-- The registry a list of distinct names denotes: indices 1, 2, 3, …. -/
def enum1 (l : List String) : RegState := enumFrom1 1 l

theorem enumFrom1_length (k : Nat) (l : List String) :
    List.length (enumFrom1 k l) = l.length := by
  induction l generalizing k with
  | nil => rfl
  | cons n rest ih => simp [enumFrom1, ih]

theorem enumFrom1_append (k : Nat) (l : List String) (n : String) :
    enumFrom1 k (l ++ [n]) = enumFrom1 k l ++ [(n, k + l.length)] := by
  induction l generalizing k with
  | nil => simp [enumFrom1]
  | cons m rest ih =>
    show (m, k) :: enumFrom1 (k + 1) (rest ++ [n])
        = (m, k) :: (enumFrom1 (k + 1) rest ++ [(n, k + (rest.length + 1))])
    rw [ih (k + 1)]
    have hk : k + 1 + rest.length = k + (rest.length + 1) := by omega
    rw [hk]

theorem lookupName_enumFrom1_of_mem (k : Nat) (l : List String) (n : String)
    (h : n ∈ l) : ∃ i, lookupName n (enumFrom1 k l) = some i := by
  induction l generalizing k with
  | nil => cases h
  | cons m rest ih =>
    by_cases hm : m = n
    · exact ⟨k, by simp [enumFrom1, lookupName, hm]⟩
    · have hr : n ∈ rest := by
        cases h with
        | head => exact absurd rfl hm
        | tail _ h => exact h
      obtain ⟨i, hi⟩ := ih (k + 1) hr
      exact ⟨i, by simp [enumFrom1, lookupName, hm, hi]⟩

theorem lookupName_enumFrom1_of_not_mem (k : Nat) (l : List String) (n : String)
    (h : n ∉ l) : lookupName n (enumFrom1 k l) = none := by
  induction l generalizing k with
  | nil => rfl
  | cons m rest ih =>
    have hm : m ≠ n := fun e => h (e ▸ List.mem_cons_self m rest)
    have hr : n ∉ rest := fun e => h (List.mem_cons_of_mem m e)
    simp [enumFrom1, lookupName, hm, ih (k + 1) hr]

/-- One registration step on a well-formed registry. -/
theorem registerScenario_enum1 (n : String) (l : List String) :
    registerScenario n (enum1 l) =
      if n ∈ l then ((lookupName n (enum1 l)).getD 0, enum1 l)
      else (l.length + 1, enum1 (l ++ [n])) := by
  by_cases h : n ∈ l
  · obtain ⟨i, hi⟩ := lookupName_enumFrom1_of_mem 1 l n h
    simp [registerScenario, enum1, hi, h]
  · have hn := lookupName_enumFrom1_of_not_mem 1 l n h
    simp only [registerScenario, enum1, hn, h, if_false]
    rw [enumFrom1_length, enumFrom1_append]
    have hh : 1 + l.length = l.length + 1 := Nat.add_comm 1 l.length
    rw [hh]

/-- Folding registrations from a well-formed registry stays well-formed and
accumulates exactly the first-seen names. -/
theorem regFold_enum1 (names : List String) (acc : List String) :
    names.foldl (fun s n => (registerScenario n s).2) (enum1 acc)
      = enum1 (firstSeenAcc acc names) := by
  induction names generalizing acc with
  | nil => rfl
  | cons n rest ih =>
    by_cases h : n ∈ acc
    · have := registerScenario_enum1 n acc
      simp only [h, if_true] at this
      simp only [List.foldl_cons, this, firstSeenAcc, h, if_true]
      exact ih acc
    · have := registerScenario_enum1 n acc
      simp only [h, if_false] at this
      simp only [List.foldl_cons, this, firstSeenAcc, h, if_false]
      exact ih (acc ++ [n])

/-- `regAll` produces exactly the first-seen names, indexed 1, 2, 3, … in
order of first sight. -/
theorem regAll_eq_enum1 (names : List String) :
    regAll names = enum1 (firstSeen names) := by
  have h := regFold_enum1 names []
  simpa [regAll, enum1, enumFrom1, firstSeen] using h

theorem enumFrom1_snd_ge (k : Nat) (l : List String) :
    ∀ p ∈ enumFrom1 k l, k ≤ p.2 := by
  induction l generalizing k with
  | nil => intro p hp; cases hp
  | cons n rest ih =>
    intro p hp
    cases hp with
    | head => exact Nat.le_refl k
    | tail _ h => exact Nat.le_trans (Nat.le_succ k) (ih (k + 1) p h)

theorem enumFrom1_snd_inj (k : Nat) (l : List String) :
    ∀ p ∈ enumFrom1 k l, ∀ q ∈ enumFrom1 k l, p.2 = q.2 → p = q := by
  induction l generalizing k with
  | nil => intro p hp; cases hp
  | cons n rest ih =>
    intro p hp q hq he
    cases hp with
    | head =>
      cases hq with
      | head => rfl
      | tail _ hq2 =>
        have := enumFrom1_snd_ge (k + 1) rest q hq2
        omega
    | tail _ hp2 =>
      cases hq with
      | head =>
        have := enumFrom1_snd_ge (k + 1) rest p hp2
        omega
      | tail _ hq2 => exact ih (k + 1) p hp2 q hq2 he

theorem lookupName_mem (n : String) (s : RegState) (i : Nat)
    (h : lookupName n s = some i) : (n, i) ∈ s := by
  induction s with
  | nil => cases h
  | cons p rest ih =>
    obtain ⟨m, j⟩ := p
    by_cases hm : m = n
    · simp only [lookupName, hm, if_true] at h
      cases h
      exact hm ▸ List.mem_cons_self _ _
    · simp only [lookupName, hm, if_false] at h
      exact List.mem_cons_of_mem _ (ih h)

theorem enumFrom1_snd_pos (l : List String) :
    ∀ p ∈ enum1 l, 1 ≤ p.2 := by
  intro p hp
  exact enumFrom1_snd_ge 1 l p hp

/-! ## Per-scenario phase-file persistence

`_scenario_file_path(phase, scenario)` resolves to
`<phase>/<%06d index>/<scenario>.txt`; the index is the registry's stable,
injective index for the scenario name (theorems above), so a file is
identified by its `(phase, scenario)` key.  A file is the list of its
lines, each stored without the trailing newline that `_append_line` /
`_overwrite_with_lines` add on write. -/

/-- The mutable persistence state of the addon: the phase files
(`files phase scenario` = lines of `<phase>/<idx>/<scenario>.txt`, `[]`
for a missing or empty file), the `_SEEN_SCENARIOS` set, and the
`_TESTING_SEEN_COUNT` map (total with default 0, like `.get(scenario, 0)`). -/
structure PersistState where
  files : String → String → List String
  seen : List String
  testingCount : String → Nat

/-- Point update of the file map. -/
def updFile (fs : String → String → List String) (ph scen : String)
    (v : List String) : String → String → List String :=
  fun p s => if p = ph ∧ s = scen then v else fs p s

/-- `_append_line(path, line)`: append one line to a file. -/
def appendLine (st : PersistState) (ph scen line : String) : PersistState :=
  { st with files := updFile st.files ph scen (st.files ph scen ++ [line]) }

/-- `_overwrite_with_lines(path, lines)`: atomically replace a file's
content (net effect on the file's lines; the tmp-file/rename mechanics are
modelled separately for the pause coordinator). -/
def overwriteFile (st : PersistState) (ph scen : String) (lines : List String) :
    PersistState :=
  { st with files := updFile st.files ph scen lines }

/-- A `for ln in lines: _append_line(path, ln)` loop. -/
def appendLines (st : PersistState) (ph scen : String) (ls : List String) :
    PersistState :=
  ls.foldl (fun acc ln => appendLine acc ph scen ln) st

/-- `_truncate_if_first_seen(scenario)`: on the first sight of a scenario
name, register it, remember it, truncate its three phase files (opened
with mode `w`), and reset its testing counter to 0; otherwise do nothing.
The registry side effect is modelled by `registerScenario` above. -/
def truncateIfFirstSeen (scen : String) (st : PersistState) : PersistState :=
  if scen ∈ st.seen then st
  else
    { files := fun p s =>
        if s = scen ∧ (p = "setup" ∨ p = "testing" ∨ p = "cleanup") then []
        else st.files p s,
      seen := scen :: st.seen,
      testingCount := Function.update st.testingCount scen 0 }

/-- `_dump_pair_to_phase(phase, scenario, np_body, fcu_body)`.  The two
arguments `npLine` and `fcuLine` stand for
`_minified_json_line(np_body)` / `_minified_json_line(fcu_body)`
(serialization is abstracted; the persistence logic treats the lines as
opaque).  `setup` and `cleanup` append the pair; every other phase value
falls through to the testing logic: on the first testing production the
testing file is overwritten with the pair, afterwards the current testing
content (its non-blank lines — in the source, lines `ln` with
`ln.strip() != ""`) is appended to the setup file before the overwrite;
the per-scenario testing counter is then incremented.  (The
`testing_path.exists()` guard is always true here: the file was created
by `_truncate_if_first_seen` and written by the previous testing
production.) -/
def dumpPairToPhase (phase scen npLine fcuLine : String) (st : PersistState) :
    PersistState :=
  if phase = "setup" then
    appendLine (appendLine st "setup" scen npLine) "setup" scen fcuLine
  else if phase = "cleanup" then
    appendLine (appendLine st "cleanup" scen npLine) "cleanup" scen fcuLine
  else
    let count := st.testingCount scen
    if count = 0 then
      let st1 := overwriteFile st "testing" scen [npLine, fcuLine]
      { st1 with testingCount := Function.update st1.testingCount scen (count + 1) }
    else
      let prev := (st.files "testing" scen).filter (fun ln => pyStripStr ln ≠ "")
      let st1 := appendLines st "setup" scen prev
      let st2 := overwriteFile st1 "testing" scen [npLine, fcuLine]
      { st2 with testingCount := Function.update st2.testingCount scen (count + 1) }

/-- A run of consecutive testing-phase productions for one scenario. -/
def dumpTestingRun (scen : String) (ps : List (String × String))
    (st : PersistState) : PersistState :=
  ps.foldl (fun acc p => dumpPairToPhase "testing" scen p.1 p.2 acc) st

/-- The two lines of each `(newPayload, forkchoiceUpdated)` pair, in
production order. -/
def pairLines : List (String × String) → List String
  | [] => []
  | p :: rest => p.1 :: p.2 :: pairLines rest

theorem pairLines_append (a b : List (String × String)) :
    pairLines (a ++ b) = pairLines a ++ pairLines b := by
  induction a with
  | nil => rfl
  | cons p rest ih => simp [pairLines, ih]

theorem appendLines_nil (ph scen : String) (st : PersistState) :
    appendLines st ph scen [] = st := rfl

theorem appendLines_cons (ph scen ln : String) (ls : List String)
    (st : PersistState) :
    appendLines st ph scen (ln :: ls)
      = appendLines (appendLine st ph scen ln) ph scen ls := rfl

theorem appendLines_files (ph scen : String) (ls : List String)
    (st : PersistState) :
    (appendLines st ph scen ls).files
      = updFile st.files ph scen (st.files ph scen ++ ls) := by
  induction ls generalizing st with
  | nil =>
    funext p s
    simp only [appendLines_nil, updFile, List.append_nil]
    by_cases h : p = ph ∧ s = scen
    · obtain ⟨h1, h2⟩ := h
      simp [h1, h2]
    · simp [h]
  | cons ln rest ih =>
    rw [appendLines_cons, ih]
    funext p s
    simp only [appendLine, updFile]
    by_cases h : p = ph ∧ s = scen
    · obtain ⟨h1, h2⟩ := h
      simp [h1, h2]
    · simp [h]

theorem appendLines_seen (ph scen : String) (ls : List String)
    (st : PersistState) : (appendLines st ph scen ls).seen = st.seen := by
  induction ls generalizing st with
  | nil => rfl
  | cons ln rest ih => rw [appendLines_cons, ih, appendLine]

theorem appendLines_testingCount (ph scen : String) (ls : List String)
    (st : PersistState) :
    (appendLines st ph scen ls).testingCount = st.testingCount := by
  induction ls generalizing st with
  | nil => rfl
  | cons ln rest ih => rw [appendLines_cons, ih, appendLine]

/-! ## The production pipeline (`_flush_group`)

`_flush_group(grp, txrlps)` drives `engine_getPayloadV4` →
`engine_newPayloadV4` → `engine_forkchoiceUpdatedV3` and then persists the
request pair.  Any raising call jumps to the `except` clause at the
bottom, which only logs — so every state mutation made before the failing
call survives.  The `EngineBehavior` record is the oracle for one flush:
which calls succeed, the returned payload's `blockHash`, and the two
minified request lines derived from the payload. -/

/-- A group key `(file_base, test_name, phase)`. -/
abbrev GrpKey := String × String × String

/-- Oracle for one production: outcome of the three Engine API calls, the
returned execution payload's `blockHash`, and the minified
`newPayload` / `forkchoiceUpdated` request lines built from it. -/
structure EngineBehavior where
  getPayloadOk : Bool
  blockHash : Option String
  newPayloadOk : Bool
  fcuOk : Bool
  npLine : String
  fcuLine : String

/-- The process-wide state `_flush_group` mutates: the `_STAGE` map, the
`_DYN_FINALIZED` anchor, the `_TESTS_STARTED` flag, the three root-level
global lifecycle files, and the per-scenario persistence state. -/
structure FlushState where
  stage : GrpKey → Option Nat
  dynFinalized : String
  testsStarted : Bool
  setupGlobal : List String
  middleGlobal : List String
  currentLast : List String
  persist : PersistState

/-- The default group used when `_flush_group` receives `None`. -/
def unknownGrp : GrpKey := ("unknown", "unknown", "unknown")

/-- Phase routing of the normal scenario flow: lowercase the phase and
fall back to `"setup"` for anything outside the three known phases. -/
def routePhase (phase : String) : String :=
  let ph := pyLower phase
  if ph = "setup" ∨ ph = "testing" ∨ ph = "cleanup" then ph else "setup"

/-- `_flush_group(grp, txrlps)`.  Modelled effects, in source order:
empty-buffer early return; `engine_getPayloadV4` (a raise leaves the state
untouched); `_STAGE` init-to-0 plus increment; `engine_newPayloadV4` (a
raise keeps the stage increment); the `_DYN_FINALIZED` anchor update for
the legacy `global-setup` file base (Python `or`: an absent or empty
`blockHash` keeps the old anchor); `engine_forkchoiceUpdatedV3` (a raise
keeps the stage and anchor mutations); then persistence — the
global/no-phase routing for file bases `global-setup` / `global-nophase`
(reuse skip, pre-test file before `_TESTS_STARTED`, otherwise roll
`current-last` into `middle` keeping non-blank lines and overwrite
`current-last`), or the normal per-scenario flow
(`_truncate_if_first_seen`, phase routing, `_dump_pair_to_phase`).
Logging, `_emit_newpayload_event`, directory hygiene
(`_ensure_dirs_and_cleanup_old`), and the overlay-marker arming at the
tail of the function (lines 650-655 and 669-685, which only touch the
pause coordinator state modelled separately below) are omitted: they do
not mutate the stage map, the anchor, or any payload file. -/
def flushGroup (reuseGlobals : Bool) (e : EngineBehavior) (grpIn : Option GrpKey)
    (txs : List String) (st : FlushState) : FlushState :=
  if txs = [] then st
  else
    let grp := grpIn.getD unknownGrp
    if e.getPayloadOk = false then st
    else
      let st := { st with
        stage := Function.update st.stage grp (some ((st.stage grp).getD 0 + 1)) }
      if e.newPayloadOk = false then st
      else
        let st :=
          if grp.1 = "global-setup" then
            { st with dynFinalized := pyOrStr e.blockHash st.dynFinalized }
          else st
        if e.fcuOk = false then st
        else
          if grp.1 = "global-setup" ∨ grp.1 = "global-nophase" then
            if reuseGlobals = true ∧ st.setupGlobal ≠ [] then st
            else if st.testsStarted = false then
              { st with setupGlobal := st.setupGlobal ++ [e.npLine, e.fcuLine] }
            else
              let st :=
                if st.currentLast ≠ [] then
                  { st with
                    middleGlobal := st.middleGlobal
                      ++ st.currentLast.filter (fun ln => pyStripStr ln ≠ ""),
                    currentLast := [] }
                else st
              { st with currentLast := [e.npLine, e.fcuLine] }
          else
            let scen := scenarioName grp.1 grp.2.1
            let st := { st with persist := truncateIfFirstSeen scen st.persist }
            { st with persist :=
                dumpPairToPhase (routePhase grp.2.2) scen e.npLine e.fcuLine st.persist }

/-! ## The transaction batching engine

`_record_sendraw` / `_produce_if_quiet` over the lock-guarded state
`{_ACTIVE_GRP, _BUF, _PENDING, _LAST_TS}`.  The flush itself happens on a
snapshot outside the lock; productions are recorded as `(group, raws)`
pairs in the order the flush calls are issued.  `_flush_group` skips an
empty buffer, so a production is only emitted for a non-empty snapshot. -/

/-- One intercepted `eth_sendRawTransaction`: the raw tx hex, the original
JSON-RPC id (opaque here), and the `time.time()` tick at which it was
buffered. -/
structure TxEv where
  raw : String
  origId : String
  now : Nat

/-- The batching engine's lock-guarded state. -/
structure BatchState where
  activeGrp : Option GrpKey
  buf : List (String × String)
  pending : Bool
  lastTs : Nat

/-- Initial state at `load()`. -/
def initB : BatchState := { activeGrp := none, buf := [], pending := false, lastTs := 0 }

/-- `QUIET_SECONDS = 0.1`, in ms ticks. -/
def quietMillis : Nat := 100

/-- A flushed production: the group passed to `_flush_group` (after its
`grp or (unknown, unknown, unknown)` defaulting) and the buffered raw
transactions in order (`[x[0] for x in buf]`). -/
abbrev ProductionRec := GrpKey × List String

/-- The tail of `_record_sendraw` (after metadata derivation and raw
validation): under the lock, force-capture the previous buffer when the
group switched while pending, make `grp` active, append the transaction
and stamp the time; outside the lock, flush the captured buffer.  The
emitted production list follows `_flush_group`'s empty-buffer skip. -/
def recordSendraw (grp : GrpKey) (ev : TxEv) (st : BatchState) :
    BatchState × List ProductionRec :=
  let forced : Option (GrpKey × List (String × String)) :=
    match st.activeGrp with
    | some g => if g ≠ grp ∧ st.pending = true then some (g, st.buf) else none
    | none => none
  match forced with
  | some (g, b) =>
    ({ activeGrp := some grp, buf := [(ev.raw, ev.origId)], pending := true,
       lastTs := ev.now },
     if b = [] then [] else [(g, b.map Prod.fst)])
  | none =>
    ({ activeGrp := some grp, buf := st.buf ++ [(ev.raw, ev.origId)],
       pending := true, lastTs := ev.now }, [])

/-- `_produce_if_quiet(force=False)` at tick `now` (one monitor poll):
return unless pending; return while the buffer is younger than the quiet
period; otherwise snapshot and clear the buffer and flush the snapshot
(with `_flush_group`'s defaulting of a `None` group and its empty-buffer
skip). -/
def produceIfQuiet (now : Nat) (st : BatchState) :
    BatchState × List ProductionRec :=
  if st.pending = false then (st, [])
  else if now - st.lastTs < quietMillis then (st, [])
  else
    ({ st with pending := false, buf := [] },
     if st.buf = [] then [] else [(st.activeGrp.getD unknownGrp, st.buf.map Prod.fst)])

/-- Events driving the batching engine: an intercepted transaction for a
group, or one quiet-monitor poll. -/
inductive BEvent where
  | tx (grp : GrpKey) (ev : TxEv)
  | quiet (now : Nat)

/-- One engine step. -/
def stepB (st : BatchState) : BEvent → BatchState × List ProductionRec
  | BEvent.tx grp ev => recordSendraw grp ev st
  | BEvent.quiet now => produceIfQuiet now st

/-- Run a sequence of events, concatenating the productions in order. -/
def runB (st : BatchState) : List BEvent → BatchState × List ProductionRec
  | [] => (st, [])
  | e :: rest =>
    let r1 := stepB st e
    let r2 := runB r1.1 rest
    (r2.1, r1.2 ++ r2.2)

theorem runB_append (st : BatchState) (es1 es2 : List BEvent) :
    runB st (es1 ++ es2)
      = ((runB (runB st es1).1 es2).1,
         (runB st es1).2 ++ (runB (runB st es1).1 es2).2) := by
  induction es1 generalizing st with
  | nil => simp [runB]
  | cons e rest ih =>
    show ((runB (stepB st e).1 (rest ++ es2)).1,
          (stepB st e).2 ++ (runB (stepB st e).1 (rest ++ es2)).2)
        = ((runB (runB (stepB st e).1 rest).1 es2).1,
           ((stepB st e).2 ++ (runB (stepB st e).1 rest).2)
             ++ (runB (runB (stepB st e).1 rest).1 es2).2)
    rw [ih]
    simp [List.append_assoc]

/-! ## The pause/resume coordinator

`_signal_cleanup_pause` / `_control_watcher` over the lock-guarded state
`{_PAUSE_EVENT, _PAUSE_TOKEN, _PAUSE_SCENARIO}` plus the control files.
File writes are traced at the level of the file operations performed, so
that the atomic (tmp-then-rename) writer `_overwrite_with_lines` is
distinguishable from the direct `Path.write_text` call used for the pause
file. -/

/-- One value of the pause-request JSON object (string, number, `null`,
or the `time.time()` timestamp as an abstract tick). -/
inductive PVal where
  | s (v : String)
  | n (v : Nat)
  | nullv
  | time (t : Nat)
deriving DecidableEq

/-- The pause-request payload written by `_signal_cleanup_pause`, as the
ordered key/value list of the dict literal in the source. -/
def pausePayload (token scen : String) (stage : Nat) (blockHash : Option String)
    (now : Nat) : List (String × PVal) :=
  [("token", PVal.s token),
   ("scenario", PVal.s scen),
   ("phase", PVal.s "cleanup"),
   ("stage", PVal.n stage),
   ("blockHash", match blockHash with | some h => PVal.s h | none => PVal.nullv),
   ("timestamp", PVal.time now)]

/-- Content written by a file operation: a list of newline-terminated
lines, or the `json.dumps` of a pause-request payload. -/
inductive FContent where
  | lines (ls : List String)
  | jsonPause (p : List (String × PVal))
deriving DecidableEq

/-- A traced file operation: a direct `open(path, "w")`-and-write (also
`Path.write_text`), or an `os.replace`-style rename. -/
inductive FOp where
  | openWrite (path : String) (content : FContent)
  | renameTo (src dst : String)
deriving DecidableEq

/-- The pause-request file path `_control/pause.json`. -/
def pausePath : String := "_control/pause.json"

/-- The file-operation trace of `_overwrite_with_lines(path, lines)`: a
full write to `path + ".tmp"` followed by `tmp.replace(path)`. -/
def overwriteWithLinesOps (path : String) (ls : List String) : List FOp :=
  [FOp.openWrite (path ++ ".tmp") (FContent.lines ls),
   FOp.renameTo (path ++ ".tmp") path]

/-- `writesViaTmpRename ops target`: the trace writes `target` atomically,
i.e. it is exactly a tmp-file write followed by the rename over `target`
(the shape `_overwrite_with_lines` produces). -/
def writesViaTmpRename (ops : List FOp) (target : String) : Prop :=
  ∃ c, ops = [FOp.openWrite (target ++ ".tmp") c,
              FOp.renameTo (target ++ ".tmp") target]

/-- The resume file's parsed fields: `data.get("token")` and
`data.get("scenario")` (absent keys give `None`). -/
structure ResumeData where
  token : Option String
  scenario : Option String
deriving DecidableEq

/-- The pause coordinator's state: the `_PAUSE_EVENT` flag (`true` =
event set = not paused), `_PAUSE_TOKEN`, `_PAUSE_SCENARIO`, the
`_PENDING_OVERLAY` marker and its confirmation flag, the resume file (its
parsed content when it exists), and the trace of file writes performed. -/
structure PauseState where
  eventSet : Bool
  token : Option String
  scenario : Option String
  pendingOverlay : Option (String × Nat × Option String)
  overlayConfirmed : Bool
  resumeFile : Option ResumeData
  ops : List FOp
deriving DecidableEq

/-- `_signal_cleanup_pause(scenario, stage, block_hash)` with the fresh
`uuid4` supplied as `newToken` and `time.time()` as `now`: under the
pause lock, drop the request when the pause event is already cleared
(pause active) — log only, no token change, no write; otherwise store the
new token and scenario, clear the event, and write the pause-request file
with a single direct `write_text`. -/
def signalCleanupPause (scen : String) (stage : Nat) (blockHash : Option String)
    (newToken : String) (now : Nat) (st : PauseState) : PauseState :=
  if st.eventSet = false then st
  else
    { st with
      token := some newToken,
      scenario := some scen,
      eventSet := false,
      ops := st.ops ++ [FOp.openWrite pausePath
        (FContent.jsonPause (pausePayload newToken scen stage blockHash now))] }

/-- One iteration of the `_control_watcher` loop body: skip while the
event is set or no resume file exists (or it fails to parse); otherwise,
under the pause lock, accept the resume only when the pause is still
active and both the token and the scenario match exactly — set the event,
reset the overlay-confirmation flag, drop the pending overlay for the
reserved `__overlay_init__` scenario, and delete the resume file.  On any
mismatch, log and leave everything (including the resume file) in place. -/
def controlWatcherStep (st : PauseState) : PauseState :=
  if st.eventSet = true then st
  else
    match st.resumeFile with
    | none => st
    | some data =>
      if st.eventSet = false ∧ data.token = st.token ∧ data.scenario = st.scenario then
        { st with
          eventSet := true,
          overlayConfirmed := false,
          pendingOverlay :=
            if data.scenario = some "__overlay_init__" then none else st.pendingOverlay,
          resumeFile := none }
      else st

/-! ## Supporting lemmas -/

theorem updFile_same (fs : String → String → List String) (ph scen : String)
    (v : List String) : updFile fs ph scen v ph scen = v := by
  simp [updFile]

theorem updFile_other (fs : String → String → List String) (ph scen p s : String)
    (v : List String) (h : ¬(p = ph ∧ s = scen)) :
    updFile fs ph scen v p s = fs p s := by
  simp [updFile, h]

theorem lookupName_append_self (n : String) (s : RegState) (j : Nat)
    (h : lookupName n s = none) : lookupName n (s ++ [(n, j)]) = some j := by
  induction s with
  | nil => simp [lookupName]
  | cons p rest ih =>
    obtain ⟨m, i⟩ := p
    by_cases hm : m = n
    · simp [lookupName, hm] at h
    · simp only [lookupName, hm, if_false] at h
      simp only [List.cons_append, lookupName, hm, if_false]
      exact ih h

theorem dumpTestingRun_nil (scen : String) (st : PersistState) :
    dumpTestingRun scen [] st = st := rfl

theorem dumpTestingRun_cons (scen : String) (p : String × String)
    (ps : List (String × String)) (st : PersistState) :
    dumpTestingRun scen (p :: ps) st
      = dumpTestingRun scen ps (dumpPairToPhase "testing" scen p.1 p.2 st) := rfl

/-- First testing production for a scenario: overwrite the testing file,
bump the counter, leave everything else alone. -/
theorem dump_testing_first (scen np fcu : String) (st : PersistState)
    (h0 : st.testingCount scen = 0) :
    dumpPairToPhase "testing" scen np fcu st =
      { files := updFile st.files "testing" scen [np, fcu],
        seen := st.seen,
        testingCount := Function.update st.testingCount scen 1 } := by
  simp [dumpPairToPhase, overwriteFile, h0]

/-- A later testing production: migrate the (non-blank) current testing
content into the setup file, overwrite the testing file, bump the
counter. -/
theorem dump_testing_migrate (scen np fcu : String) (st : PersistState)
    (hc : st.testingCount scen ≠ 0)
    (hT : ∀ ln ∈ st.files "testing" scen, pyStripStr ln ≠ "") :
    dumpPairToPhase "testing" scen np fcu st =
      { files := updFile
          (updFile st.files "setup" scen
            (st.files "setup" scen ++ st.files "testing" scen))
          "testing" scen [np, fcu],
        seen := st.seen,
        testingCount :=
          Function.update st.testingCount scen (st.testingCount scen + 1) } := by
  have hfilter : (st.files "testing" scen).filter (fun ln => pyStripStr ln ≠ "")
      = st.files "testing" scen := by
    rw [List.filter_eq_self]
    intro a ha
    simpa using hT a ha
  simp only [ne_eq, decide_not] at hfilter
  have hfs := appendLines_files "setup" scen (st.files "testing" scen) st
  have hsn := appendLines_seen "setup" scen (st.files "testing" scen) st
  have htc := appendLines_testingCount "setup" scen (st.files "testing" scen) st
  simp [dumpPairToPhase, hc, hfilter, hfs, hsn, htc, overwriteFile]

/-- Running testing productions from a state whose counter is already
positive: the testing file ends at the last pair, and everything before it
is migrated into the setup file in order. -/
theorem dumpTestingRun_ge1 (scen : String) (mid : List (String × String))
    (plast : String × String) (st : PersistState)
    (hc : st.testingCount scen ≠ 0)
    (hT : ∀ ln ∈ st.files "testing" scen, pyStripStr ln ≠ "")
    (hnb : ∀ p ∈ mid, pyStripStr p.1 ≠ "" ∧ pyStripStr p.2 ≠ "") :
    (dumpTestingRun scen (mid ++ [plast]) st).files "testing" scen
        = [plast.1, plast.2]
    ∧ (dumpTestingRun scen (mid ++ [plast]) st).files "setup" scen
        = st.files "setup" scen ++ st.files "testing" scen ++ pairLines mid := by
  induction mid generalizing st with
  | nil =>
    rw [List.nil_append, dumpTestingRun_cons, dumpTestingRun_nil,
      dump_testing_migrate scen plast.1 plast.2 st hc hT]
    constructor
    · simp [updFile]
    · simp [updFile, pairLines]
  | cons q qs ih =>
    rw [List.cons_append, dumpTestingRun_cons,
      dump_testing_migrate scen q.1 q.2 st hc hT]
    have hq := hnb q (List.mem_cons_self q qs)
    obtain ⟨h1, h2⟩ := ih
      { files := updFile
          (updFile st.files "setup" scen
            (st.files "setup" scen ++ st.files "testing" scen))
          "testing" scen [q.1, q.2],
        seen := st.seen,
        testingCount :=
          Function.update st.testingCount scen (st.testingCount scen + 1) }
      (by simp [Function.update])
      (by
        intro ln hln
        simp only [updFile_same] at hln
        cases hln with
        | head => exact hq.1
        | tail _ h =>
          cases h with
          | head => exact hq.2
          | tail _ h => cases h)
      (fun p hp => hnb p (List.mem_cons_of_mem q hp))
    refine ⟨h1, ?_⟩
    rw [h2]
    simp [updFile, pairLines, List.append_assoc]

/-- Claim C1: for a scenario with `N ≥ 2` consecutive testing-phase
productions starting from a fresh per-scenario state (empty setup file,
testing counter 0, as `_truncate_if_first_seen` leaves it), after the
`N`th production the testing file holds exactly the `N`th
`(newPayload, forkchoiceUpdated)` pair as two lines, and the setup file
holds pairs 1 through `N−1` appended in production order.  The run is
`front ++ [pN]` with `front` nonempty, so `N = front.length + 1 ≥ 2`;
minified JSON lines are non-blank, which hypothesis `hnb` records. -/
theorem testing_overwrite_migration (scen : String)
    (front : List (String × String)) (pN : String × String) (st : PersistState)
    (hfront : front ≠ [])
    (hnb : ∀ p ∈ front, pyStripStr p.1 ≠ "" ∧ pyStripStr p.2 ≠ "")
    (hsetup : st.files "setup" scen = [])
    (hcount : st.testingCount scen = 0) :
    (dumpTestingRun scen (front ++ [pN]) st).files "testing" scen
        = [pN.1, pN.2]
    ∧ (dumpTestingRun scen (front ++ [pN]) st).files "setup" scen
        = pairLines front := by
  obtain ⟨q, qs, rfl⟩ : ∃ q qs, front = q :: qs := by
    cases front with
    | nil => exact absurd rfl hfront
    | cons q qs => exact ⟨q, qs, rfl⟩
  rw [List.cons_append, dumpTestingRun_cons,
    dump_testing_first scen q.1 q.2 st hcount]
  have hq := hnb q (List.mem_cons_self q qs)
  obtain ⟨h1, h2⟩ := dumpTestingRun_ge1 scen qs pN
    { files := updFile st.files "testing" scen [q.1, q.2],
      seen := st.seen,
      testingCount := Function.update st.testingCount scen 1 }
    (by simp [Function.update])
    (by
      intro ln hln
      simp only [updFile_same] at hln
      cases hln with
      | head => exact hq.1
      | tail _ h =>
        cases h with
        | head => exact hq.2
        | tail _ h => cases h)
    (fun p hp => hnb p (List.mem_cons_of_mem q hp))
  refine ⟨h1, ?_⟩
  rw [h2]
  simp [updFile, pairLines, hsetup]

/-- The empty persistence state (all files empty, nothing seen, all
testing counters 0). -/
def persistInit : PersistState :=
  { files := fun _ _ => [], seen := [], testingCount := fun _ => 0 }

/-- Witness for C1 at a concrete two-production run. -/
theorem testing_overwrite_migration_witness :
    (dumpTestingRun "s" ([("a", "b")] ++ [("c", "d")]) persistInit).files "testing" "s"
        = ["c", "d"]
    ∧ (dumpTestingRun "s" ([("a", "b")] ++ [("c", "d")]) persistInit).files "setup" "s"
        = ["a", "b"] := by
  have h := testing_overwrite_migration "s" [("a", "b")] ("c", "d") persistInit
    (by decide) (by decide) rfl rfl
  simpa [pairLines] using h

/-- Claim C3: for any sequence of registration calls, `register(name)`
returns an index `≥ 1`; a repeat call for the same name returns the same
index and leaves the in-memory sequence unchanged; the registry after any
call sequence is exactly the distinct names in order of first sight paired
with the strictly increasing indices 1, 2, 3, …; indices are injective
over the registry; and existing entries are never removed or reassigned by
a further call. -/
theorem register_scenario_monotone (names : List String) (n : String) :
    1 ≤ (registerScenario n (regAll names)).1
    ∧ registerScenario n (registerScenario n (regAll names)).2
        = ((registerScenario n (regAll names)).1,
           (registerScenario n (regAll names)).2)
    ∧ regAll names = enum1 (firstSeen names)
    ∧ (∀ p ∈ regAll names, ∀ q ∈ regAll names, p.2 = q.2 → p = q)
    ∧ (∀ p ∈ regAll names, p ∈ (registerScenario n (regAll names)).2) := by
  have hchar := regAll_eq_enum1 names
  refine ⟨?_, ?_, hchar, ?_, ?_⟩
  · cases h : lookupName n (regAll names) with
    | some i =>
      have hmem : (n, i) ∈ regAll names := lookupName_mem n (regAll names) i h
      rw [hchar] at hmem
      have := enumFrom1_snd_pos (firstSeen names) (n, i) hmem
      simpa [registerScenario, h] using this
    | none => simp [registerScenario, h]
  · cases h : lookupName n (regAll names) with
    | some i => simp [registerScenario, h]
    | none =>
      have h2 := lookupName_append_self n (regAll names)
        (List.length (regAll names) + 1) h
      simp [registerScenario, h, h2]
  · intro p hp q hq he
    rw [hchar] at hp hq
    exact enumFrom1_snd_inj 1 (firstSeen names) p hp q hq he
  · intro p hp
    cases h : lookupName n (regAll names) with
    | some i => simpa [registerScenario, h] using hp
    | none =>
      simp only [registerScenario, h]
      exact List.mem_append_left _ hp

/-! ## Batch isolation lemmas -/

/-- The `_LAST_TS` value after buffering a run of transactions: the last
transaction's tick (or `a` when the run is empty). -/
def lastNow (l : List TxEv) (a : Nat) : Nat :=
  l.foldl (fun _ e => e.now) a

theorem lastNow_mem (l : List TxEv) (a : Nat) (h : l ≠ []) :
    ∃ e ∈ l, lastNow l a = e.now := by
  induction l generalizing a with
  | nil => exact absurd rfl h
  | cons e rest ih =>
    cases rest with
    | nil => exact ⟨e, List.mem_cons_self e [], rfl⟩
    | cons f rs =>
      obtain ⟨x, hx, hxe⟩ := ih e.now (by simp)
      exact ⟨x, List.mem_cons_of_mem e hx, hxe⟩

theorem runB_nil (st : BatchState) : runB st [] = (st, []) := rfl

theorem runB_cons (st : BatchState) (e : BEvent) (es : List BEvent) :
    runB st (e :: es)
      = ((runB (stepB st e).1 es).1, (stepB st e).2 ++ (runB (stepB st e).1 es).2) := rfl

/-- First transaction from the idle initial state: no force flush. -/
theorem stepB_first (g : GrpKey) (ev : TxEv) :
    stepB initB (BEvent.tx g ev)
      = ({ activeGrp := some g, buf := [(ev.raw, ev.origId)], pending := true,
           lastTs := ev.now }, []) := by
  simp [stepB, recordSendraw, initB]

/-- A transaction for the already-active group appends to the buffer. -/
theorem stepB_tx_same (g : GrpKey) (ev : TxEv) (st : BatchState)
    (hg : st.activeGrp = some g) (hp : st.pending = true) :
    stepB st (BEvent.tx g ev)
      = ({ activeGrp := some g, buf := st.buf ++ [(ev.raw, ev.origId)],
           pending := true, lastTs := ev.now }, []) := by
  simp [stepB, recordSendraw, hg, hp]

/-- A run of same-group transactions accumulates in order, emitting no
production. -/
theorem runB_tx_accum (g : GrpKey) (l : List TxEv) (st : BatchState)
    (hg : st.activeGrp = some g) (hp : st.pending = true) :
    runB st (l.map (BEvent.tx g))
      = ({ activeGrp := some g,
           buf := st.buf ++ l.map (fun e => (e.raw, e.origId)),
           pending := true, lastTs := lastNow l st.lastTs }, []) := by
  induction l generalizing st with
  | nil =>
    obtain ⟨a, b, p, t⟩ := st
    simp only [Option.some.injEq] at hg
    simp_all [runB, lastNow]
  | cons e rest ih =>
    rw [List.map_cons, runB_cons, stepB_tx_same g e st hg hp]
    rw [ih { activeGrp := some g, buf := st.buf ++ [(e.raw, e.origId)],
             pending := true, lastTs := e.now } rfl rfl]
    simp [lastNow]

/-- A transaction for a different group while pending: force-flush the
previous buffer, then start a fresh buffer under the new group. -/
theorem stepB_switch (g1 g2 : GrpKey) (ev : TxEv) (st : BatchState)
    (hg : st.activeGrp = some g1) (hp : st.pending = true) (hne : g1 ≠ g2)
    (hb : st.buf ≠ []) :
    stepB st (BEvent.tx g2 ev)
      = ({ activeGrp := some g2, buf := [(ev.raw, ev.origId)], pending := true,
           lastTs := ev.now }, [(g1, st.buf.map Prod.fst)]) := by
  simp [stepB, recordSendraw, hg, hp, hne, hb]

/-- A quiet poll at tick `T`, at least `quietMillis` after the last
buffered transaction, flushes the pending buffer. -/
theorem stepB_quiet (st : BatchState) (T : Nat) (hp : st.pending = true)
    (hT : st.lastTs + quietMillis ≤ T) (hb : st.buf ≠ []) :
    stepB st (BEvent.quiet T)
      = ({ st with pending := false, buf := [] },
         [(st.activeGrp.getD unknownGrp, st.buf.map Prod.fst)]) := by
  have hage : ¬(T - st.lastTs < quietMillis) := by omega
  simp [stepB, produceIfQuiet, hp, hage, hb]

theorem map_fst_pairs (l : List TxEv) :
    (l.map (fun e => (e.raw, e.origId))).map Prod.fst = l.map TxEv.raw := by
  induction l with
  | nil => rfl
  | cons e rest ih => simp [ih]

/-- Claim C2: two runs of transactions for different group keys submitted
back to back (no quiet poll fires in between), followed by a quiet-period
flush, produce exactly two productions: first the whole first-group run,
then the whole second-group run, each containing only its own group's raw
transactions in submission order. -/
theorem batch_isolation (g1 g2 : GrpKey) (ts1 ts2 : List TxEv) (T : Nat)
    (hg : g1 ≠ g2) (h1 : ts1 ≠ []) (h2 : ts2 ≠ [])
    (hq : ∀ e ∈ ts2, e.now + quietMillis ≤ T) :
    (runB initB (ts1.map (BEvent.tx g1) ++ (ts2.map (BEvent.tx g2)
        ++ [BEvent.quiet T]))).2
      = [(g1, ts1.map TxEv.raw), (g2, ts2.map TxEv.raw)] := by
  obtain ⟨e1, r1, rfl⟩ : ∃ e r, ts1 = e :: r := by
    cases ts1 with
    | nil => exact absurd rfl h1
    | cons e r => exact ⟨e, r, rfl⟩
  obtain ⟨f2, r2, rfl⟩ : ∃ e r, ts2 = e :: r := by
    cases ts2 with
    | nil => exact absurd rfl h2
    | cons e r => exact ⟨e, r, rfl⟩
  have hA : runB initB ((e1 :: r1).map (BEvent.tx g1))
      = ({ activeGrp := some g1,
           buf := (e1 :: r1).map (fun e => (e.raw, e.origId)),
           pending := true, lastTs := lastNow r1 e1.now }, []) := by
    have hmc : (e1 :: r1).map (BEvent.tx g1)
        = BEvent.tx g1 e1 :: r1.map (BEvent.tx g1) := rfl
    rw [hmc, runB_cons, stepB_first]
    rw [runB_tx_accum g1 r1 _ rfl rfl]
    simp
  have hB : runB
        { activeGrp := some g1,
          buf := (e1 :: r1).map (fun e => (e.raw, e.origId)),
          pending := true, lastTs := lastNow r1 e1.now }
        ((f2 :: r2).map (BEvent.tx g2))
      = ({ activeGrp := some g2,
           buf := (f2 :: r2).map (fun e => (e.raw, e.origId)),
           pending := true, lastTs := lastNow r2 f2.now },
         [(g1, (e1 :: r1).map TxEv.raw)]) := by
    have hmc : (f2 :: r2).map (BEvent.tx g2)
        = BEvent.tx g2 f2 :: r2.map (BEvent.tx g2) := rfl
    rw [hmc, runB_cons,
      stepB_switch g1 g2 f2 _ rfl rfl hg (by simp)]
    rw [runB_tx_accum g2 r2 _ rfl rfl]
    simp [map_fst_pairs]
  have hlast : ∃ x ∈ f2 :: r2, lastNow r2 f2.now = x.now :=
    lastNow_mem (f2 :: r2) 0 (by simp)
  obtain ⟨x, hx, hxe⟩ := hlast
  have hC : stepB
        { activeGrp := some g2,
          buf := (f2 :: r2).map (fun e => (e.raw, e.origId)),
          pending := true, lastTs := lastNow r2 f2.now } (BEvent.quiet T)
      = ({ activeGrp := some g2, buf := [], pending := false,
           lastTs := lastNow r2 f2.now },
         [(g2, (f2 :: r2).map TxEv.raw)]) := by
    rw [stepB_quiet _ T rfl (by rw [hxe]; exact hq x hx) (by simp)]
    simp [map_fst_pairs]
  rw [runB_append, hA, runB_append, hB, runB_cons, hC, runB_nil]
  simp

/-- Claim C4: while a pause is already active (pause event cleared, a
token outstanding), a further pause trigger is a no-op: the state —
including the outstanding token, the scenario, and the file-write trace —
is left completely unchanged, so no new token is stored and no second
pause-request file is written. -/
theorem pause_exclusivity (st : PauseState) (tok scen2 : String)
    (stage : Nat) (bh : Option String) (newTok : String) (now : Nat)
    (hactive : st.eventSet = false) (_htok : st.token = some tok) :
    signalCleanupPause scen2 stage bh newTok now st = st := by
  simp [signalCleanupPause, hactive]

/-- A concrete paused coordinator state. -/
def pausedSt : PauseState :=
  { eventSet := false, token := some "t1", scenario := some "sc1",
    pendingOverlay := none, overlayConfirmed := false, resumeFile := none,
    ops := [] }

/-- Witness for C4: a second trigger while `pausedSt` is paused changes
nothing. -/
theorem pause_exclusivity_witness :
    pausedSt.eventSet = false ∧ pausedSt.token = some "t1"
    ∧ signalCleanupPause "sc2" 3 (some "0xb") "t2" 99 pausedSt = pausedSt :=
  ⟨rfl, rfl, pause_exclusivity pausedSt "t1" "sc2" 3 (some "0xb") "t2" 99 rfl rfl⟩

/-- Claim C5: with a pause outstanding and a resume file present, a
resume whose token and scenario both match clears the pause and deletes
the resume file; a resume where either field differs leaves the whole
pause state (token, scenario, paused flag) unchanged and keeps the resume
file. -/
theorem resume_token_matching (st : PauseState) (d : ResumeData)
    (hactive : st.eventSet = false) (hfile : st.resumeFile = some d) :
    (d.token = st.token ∧ d.scenario = st.scenario →
      (controlWatcherStep st).eventSet = true
      ∧ (controlWatcherStep st).resumeFile = none)
    ∧ (¬(d.token = st.token ∧ d.scenario = st.scenario) →
      controlWatcherStep st = st) := by
  constructor
  · intro hm
    simp [controlWatcherStep, hactive, hfile, hm.1, hm.2]
  · intro hm
    have h1 : ¬(st.eventSet = true) := by simp [hactive]
    have hcond : ¬(st.eventSet = false ∧ d.token = st.token
        ∧ d.scenario = st.scenario) :=
      fun hcon => hm ⟨hcon.2.1, hcon.2.2⟩
    simp only [controlWatcherStep, hfile]
    rw [if_neg h1, if_neg hcond]

/-- A concrete paused state whose resume file matches the outstanding
pause. -/
def pausedStMatch : PauseState :=
  { eventSet := false, token := some "t1", scenario := some "sc1",
    pendingOverlay := none, overlayConfirmed := false,
    resumeFile := some { token := some "t1", scenario := some "sc1" },
    ops := [] }

/-- Witness for C5: a matching resume clears the pause and deletes the
resume file. -/
theorem resume_token_matching_witness :
    pausedStMatch.eventSet = false
    ∧ pausedStMatch.resumeFile = some { token := some "t1", scenario := some "sc1" }
    ∧ (controlWatcherStep pausedStMatch).eventSet = true
    ∧ (controlWatcherStep pausedStMatch).resumeFile = none := by
  have h := resume_token_matching pausedStMatch
    { token := some "t1", scenario := some "sc1" } rfl rfl
  have h2 := h.1 ⟨rfl, rfl⟩
  exact ⟨rfl, rfl, h2.1, h2.2⟩

/-! ## Stage counter and anchor behaviour of `_flush_group` -/

/-- A fresh `_flush_group` state: no stages, anchor `"0xold"`, tests not
yet started, all files empty. -/
def flushInit : FlushState :=
  { stage := fun _ => none, dynFinalized := "0xold", testsStarted := false,
    setupGlobal := [], middleGlobal := [], currentLast := [],
    persist := persistInit }

/-- An oracle for a fully successful production whose payload block hash
is `"0xnew"`. -/
def engAllOk : EngineBehavior :=
  { getPayloadOk := true, blockHash := some "0xnew", newPayloadOk := true,
    fcuOk := true, npLine := "np", fcuLine := "fcu" }

/-- An oracle whose `engine_newPayloadV4` call raises (after a successful
`engine_getPayloadV4`). -/
def engNpFail : EngineBehavior :=
  { getPayloadOk := true, blockHash := some "0xbeef", newPayloadOk := false,
    fcuOk := true, npLine := "np", fcuLine := "fcu" }

/-- Counterexample to claim C6 as stated: with `engine_newPayloadV4`
raising, the production fails (nothing is persisted — the scenario's
testing file stays empty), yet the group's stage counter has moved from
absent (0) to 1, because `_STAGE[grp] += 1` executes between `getPayload`
and `newPayload`. -/
theorem stage_counter_counterexample :
    (flushGroup false engNpFail (some ("f", "t", "testing")) ["0x01"]
        flushInit).stage ("f", "t", "testing") = some 1
    ∧ flushInit.stage ("f", "t", "testing") = none
    ∧ (flushGroup false engNpFail (some ("f", "t", "testing")) ["0x01"]
        flushInit).persist.files "testing" (scenarioName "f" "t") = [] := by
  refine ⟨?_, rfl, rfl⟩
  simp [flushGroup, engNpFail, flushInit, Function.update]

/-- Claim C6 (amended): the stage counter of the flushed group starts at
0 (absent) and is incremented by exactly 1 whenever `engine_getPayloadV4`
succeeds — so by exactly 1 on every successful production, unchanged on a
production that fails at `getPayload`, but still incremented by 1 on a
production that fails at `newPayload` or `forkchoiceUpdated` (the
increment happens before those calls); counters of all other groups are
untouched. -/
theorem stage_counter_char (reuse : Bool) (e : EngineBehavior)
    (grpIn : Option GrpKey) (txs : List String) (st : FlushState)
    (hne : txs ≠ []) :
    ((flushGroup reuse e grpIn txs st).stage (grpIn.getD unknownGrp)
        = if e.getPayloadOk = true
          then some ((st.stage (grpIn.getD unknownGrp)).getD 0 + 1)
          else st.stage (grpIn.getD unknownGrp))
    ∧ ∀ g, g ≠ grpIn.getD unknownGrp →
        (flushGroup reuse e grpIn txs st).stage g = st.stage g := by
  cases hgp : e.getPayloadOk with
  | false =>
    constructor
    · simp [flushGroup, hne, hgp]
    · intro g hg
      simp [flushGroup, hne, hgp]
  | true =>
    have key : (flushGroup reuse e grpIn txs st).stage
        = Function.update st.stage (grpIn.getD unknownGrp)
            (some ((st.stage (grpIn.getD unknownGrp)).getD 0 + 1)) := by
      simp only [flushGroup, hne, hgp]
      split_ifs <;> first | rfl | simp_all
    constructor
    · rw [key]
      simp [Function.update]
    · intro g hg
      rw [key]
      simp [Function.update, hg]

/-- Witness for the amended C6 at a successful concrete production. -/
theorem stage_counter_char_witness :
    (["0x01"] : List String) ≠ []
    ∧ (flushGroup false engAllOk (some ("f", "t", "setup")) ["0x01"]
        flushInit).stage ("f", "t", "setup") = some 1 := by
  refine ⟨by decide, ?_⟩
  have h := stage_counter_char false engAllOk (some ("f", "t", "setup"))
    ["0x01"] flushInit (by decide)
  simpa [engAllOk, flushInit] using h.1

/-- Counterexample to claim C7 as stated: a fully successful production
for the reserved global/no-phase group
`("global-nophase", "global-nophase", "global-nophase")` leaves the
Dynamic Finalized-Block Anchor at its old value instead of updating it to
the new block's hash — the anchor update in the source fires only for the
legacy `global-setup` file base. -/
theorem anchor_counterexample :
    (flushGroup false engAllOk
        (some ("global-nophase", "global-nophase", "global-nophase")) ["0x01"]
        flushInit).dynFinalized = "0xold"
    ∧ engAllOk.blockHash = some "0xnew"
    ∧ ("0xold" : String) ≠ "0xnew" := by
  refine ⟨rfl, rfl, by decide⟩

/-- Claim C7 (amended): the anchor is updated — to the payload's block
hash when present and non-empty, otherwise kept — exactly when
`getPayload` and `newPayload` succeed for a group whose file base is the
legacy `"global-setup"` sentinel; for every other group, including the
reserved `"global-nophase"` sentinel and all phased scenarios, every
production leaves it constant. -/
theorem anchor_char (reuse : Bool) (e : EngineBehavior)
    (grpIn : Option GrpKey) (txs : List String) (st : FlushState)
    (hne : txs ≠ []) :
    (flushGroup reuse e grpIn txs st).dynFinalized
      = if e.getPayloadOk = true ∧ e.newPayloadOk = true
            ∧ (grpIn.getD unknownGrp).1 = "global-setup"
        then pyOrStr e.blockHash st.dynFinalized
        else st.dynFinalized := by
  cases hgp : e.getPayloadOk with
  | false => simp [flushGroup, hne, hgp]
  | true =>
    cases hnp : e.newPayloadOk with
    | false => simp [flushGroup, hne, hgp, hnp]
    | true =>
      by_cases hfb : (grpIn.getD unknownGrp).1 = "global-setup"
      · simp only [flushGroup, hne, hgp, hnp, hfb]
        split_ifs <;> simp_all
      · simp only [flushGroup, hne, hgp, hnp, hfb]
        split_ifs <;> simp_all

/-- Witness for the amended C7: a successful `global-setup` production
moves the anchor to the new block hash. -/
theorem anchor_char_witness :
    (["0x01"] : List String) ≠ []
    ∧ (flushGroup false engAllOk (some ("global-setup", "g", "x")) ["0x01"]
        flushInit).dynFinalized = "0xnew" := by
  refine ⟨by decide, ?_⟩
  have h := anchor_char false engAllOk (some ("global-setup", "g", "x"))
    ["0x01"] flushInit (by decide)
  simpa [engAllOk, flushInit, pyOrStr] using h

/-! ## Normal-scenario persistence routing of `_flush_group` -/

/-- For a fully successful production of a non-global group,
`_flush_group`'s persistence is exactly `_dump_pair_to_phase` after
`_truncate_if_first_seen`, with the phase routed through the
lowercase-and-default-to-setup rule. -/
theorem flushGroup_normal (reuse : Bool) (e : EngineBehavior)
    (fb tn phz : String) (txs : List String) (st : FlushState)
    (hne : txs ≠ []) (hgp : e.getPayloadOk = true)
    (hnp : e.newPayloadOk = true) (hfc : e.fcuOk = true)
    (hfb1 : fb ≠ "global-setup") (hfb2 : fb ≠ "global-nophase") :
    (flushGroup reuse e (some (fb, tn, phz)) txs st).persist
      = dumpPairToPhase (routePhase phz) (scenarioName fb tn) e.npLine
          e.fcuLine (truncateIfFirstSeen (scenarioName fb tn) st.persist) := by
  simp [flushGroup, hne, hgp, hnp, hfc, hfb1, hfb2]

theorem dumpPairToPhase_seen (ph scen np fcu : String) (st : PersistState) :
    (dumpPairToPhase ph scen np fcu st).seen = st.seen := by
  simp only [dumpPairToPhase]
  split_ifs <;> simp [appendLine, overwriteFile, appendLines_seen]

theorem truncate_seen_self (scen : String) (st : PersistState) :
    scen ∈ (truncateIfFirstSeen scen st).seen := by
  by_cases h : scen ∈ st.seen <;> simp [truncateIfFirstSeen, h]

/-- Claim C9: in a successful non-global production, the pair is dumped
only after the first-seen truncation step; for a scenario never seen
before, that step leaves all three phase files empty and the testing
counter at 0; for an already-seen scenario it is the identity (so the
files are never truncated again); and after any such production the
scenario is registered as seen. -/
theorem first_seen_truncation (reuse : Bool) (e : EngineBehavior)
    (fb tn phz : String) (txs : List String) (st : FlushState)
    (hne : txs ≠ [])
    (hok : e.getPayloadOk = true ∧ e.newPayloadOk = true ∧ e.fcuOk = true)
    (hfb1 : fb ≠ "global-setup") (hfb2 : fb ≠ "global-nophase") :
    (flushGroup reuse e (some (fb, tn, phz)) txs st).persist
        = dumpPairToPhase (routePhase phz) (scenarioName fb tn) e.npLine
            e.fcuLine (truncateIfFirstSeen (scenarioName fb tn) st.persist)
    ∧ (scenarioName fb tn ∉ st.persist.seen →
        (truncateIfFirstSeen (scenarioName fb tn) st.persist).files "setup"
            (scenarioName fb tn) = []
        ∧ (truncateIfFirstSeen (scenarioName fb tn) st.persist).files "testing"
            (scenarioName fb tn) = []
        ∧ (truncateIfFirstSeen (scenarioName fb tn) st.persist).files "cleanup"
            (scenarioName fb tn) = []
        ∧ (truncateIfFirstSeen (scenarioName fb tn) st.persist).testingCount
            (scenarioName fb tn) = 0)
    ∧ (scenarioName fb tn ∈ st.persist.seen →
        truncateIfFirstSeen (scenarioName fb tn) st.persist = st.persist)
    ∧ scenarioName fb tn
        ∈ (flushGroup reuse e (some (fb, tn, phz)) txs st).persist.seen := by
  obtain ⟨hgp, hnp, hfc⟩ := hok
  have hmain := flushGroup_normal reuse e fb tn phz txs st hne hgp hnp hfc hfb1 hfb2
  refine ⟨hmain, ?_, ?_, ?_⟩
  · intro h
    refine ⟨?_, ?_, ?_, ?_⟩ <;> simp [truncateIfFirstSeen, h, Function.update]
  · intro h
    simp [truncateIfFirstSeen, h]
  · rw [hmain, dumpPairToPhase_seen]
    exact truncate_seen_self _ _

/-- Witness for C9 at a first-ever production for scenario
`scenarioName "f" "t"`. -/
theorem first_seen_truncation_witness :
    scenarioName "f" "t" ∉ flushInit.persist.seen
    ∧ (truncateIfFirstSeen (scenarioName "f" "t") flushInit.persist).files
        "setup" (scenarioName "f" "t") = []
    ∧ (truncateIfFirstSeen (scenarioName "f" "t") flushInit.persist).testingCount
        (scenarioName "f" "t") = 0
    ∧ scenarioName "f" "t"
        ∈ (flushGroup false engAllOk (some ("f", "t", "testing")) ["0x01"]
            flushInit).persist.seen := by
  have h := first_seen_truncation false engAllOk "f" "t" "testing" ["0x01"]
    flushInit (by decide) ⟨rfl, rfl, rfl⟩ (by decide) (by decide)
  have hnotin : scenarioName "f" "t" ∉ flushInit.persist.seen := by
    simp [flushInit, persistInit]
  have h2 := h.2.1 hnotin
  exact ⟨hnotin, h2.1, h2.2.2.2, h.2.2.2⟩

/-- Claim C10: a successful production for a non-global group whose
phase, lowercased, is none of `setup` / `testing` / `cleanup` has its
pair appended to the scenario's setup file (after the first-seen
truncation step), while the testing and cleanup files and the testing
counter are untouched. -/
theorem unknown_phase_to_setup (reuse : Bool) (e : EngineBehavior)
    (fb tn phz : String) (txs : List String) (st : FlushState)
    (hne : txs ≠ [])
    (hok : e.getPayloadOk = true ∧ e.newPayloadOk = true ∧ e.fcuOk = true)
    (hfb1 : fb ≠ "global-setup") (hfb2 : fb ≠ "global-nophase")
    (hp1 : pyLower phz ≠ "setup") (hp2 : pyLower phz ≠ "testing")
    (hp3 : pyLower phz ≠ "cleanup") :
    (flushGroup reuse e (some (fb, tn, phz)) txs st).persist.files "setup"
        (scenarioName fb tn)
      = (truncateIfFirstSeen (scenarioName fb tn) st.persist).files "setup"
          (scenarioName fb tn) ++ [e.npLine, e.fcuLine]
    ∧ (flushGroup reuse e (some (fb, tn, phz)) txs st).persist.files "testing"
        (scenarioName fb tn)
      = (truncateIfFirstSeen (scenarioName fb tn) st.persist).files "testing"
          (scenarioName fb tn)
    ∧ (flushGroup reuse e (some (fb, tn, phz)) txs st).persist.files "cleanup"
        (scenarioName fb tn)
      = (truncateIfFirstSeen (scenarioName fb tn) st.persist).files "cleanup"
          (scenarioName fb tn)
    ∧ (flushGroup reuse e (some (fb, tn, phz)) txs st).persist.testingCount
      = (truncateIfFirstSeen (scenarioName fb tn) st.persist).testingCount := by
  obtain ⟨hgp, hnp, hfc⟩ := hok
  have hmain := flushGroup_normal reuse e fb tn phz txs st hne hgp hnp hfc hfb1 hfb2
  have hroute : routePhase phz = "setup" := by
    simp [routePhase, hp1, hp2, hp3]
  rw [hmain, hroute]
  refine ⟨?_, ?_, ?_, ?_⟩ <;>
    simp [dumpPairToPhase, appendLine, updFile]

/-- Witness for C10: an unrecognized phase `"weird"` routes the pair into
the scenario's setup file. -/
theorem unknown_phase_to_setup_witness :
    pyLower "weird" ≠ "setup"
    ∧ (flushGroup false engAllOk (some ("f2", "t2", "weird")) ["0x01"]
        flushInit).persist.files "setup" (scenarioName "f2" "t2")
      = ["np", "fcu"] := by
  refine ⟨by decide, ?_⟩
  have h := unknown_phase_to_setup false engAllOk "f2" "t2" "weird" ["0x01"]
    flushInit (by decide) ⟨rfl, rfl, rfl⟩ (by decide) (by decide)
    (by decide) (by decide) (by decide)
  rw [h.1]
  have htr : (truncateIfFirstSeen (scenarioName "f2" "t2") flushInit.persist).files
      "setup" (scenarioName "f2" "t2") = [] := by
    simp [truncateIfFirstSeen, flushInit, persistInit]
  rw [htr]
  rfl

/-! ## Pause-request file write shape -/

/-- An idle coordinator state (no pause outstanding, empty trace). -/
def idleSt : PauseState :=
  { eventSet := true, token := none, scenario := none,
    pendingOverlay := none, overlayConfirmed := false, resumeFile := none,
    ops := [] }

/-- Counterexample to claim C8 as stated: triggering a pause from the
idle state writes the pause-request file with one direct
`Path.write_text` — the trace is a single direct write to the target, not
the temporary-file-plus-rename shape that `_overwrite_with_lines`
produces, so the write is not atomic in the claimed sense. -/
theorem pause_file_not_atomic :
    (signalCleanupPause "sc" 1 (some "0xb") "tok" 7 idleSt).ops
      = [FOp.openWrite pausePath
          (FContent.jsonPause (pausePayload "tok" "sc" 1 (some "0xb") 7))]
    ∧ ¬ writesViaTmpRename
        (signalCleanupPause "sc" 1 (some "0xb") "tok" 7 idleSt).ops pausePath := by
  refine ⟨rfl, ?_⟩
  intro hcon
  obtain ⟨c, hc⟩ := hcon
  have hops : (signalCleanupPause "sc" 1 (some "0xb") "tok" 7 idleSt).ops
      = [FOp.openWrite pausePath
          (FContent.jsonPause (pausePayload "tok" "sc" 1 (some "0xb") 7))] := rfl
  rw [hops] at hc
  simp at hc

/-- Claim C8 (amended): every pause-request file is written with a single
direct write to the target path (not via a temporary file and rename),
and its JSON object contains exactly the fields `token`, `scenario`,
`phase`, `stage`, `blockHash` and `timestamp`, in that order. -/
theorem pause_file_direct_write (st : PauseState) (scen : String)
    (stage : Nat) (bh : Option String) (newTok : String) (now : Nat)
    (hidle : st.eventSet = true) :
    (signalCleanupPause scen stage bh newTok now st).ops
      = st.ops ++ [FOp.openWrite pausePath
          (FContent.jsonPause (pausePayload newTok scen stage bh now))]
    ∧ (pausePayload newTok scen stage bh now).map Prod.fst
      = ["token", "scenario", "phase", "stage", "blockHash", "timestamp"] := by
  constructor
  · simp [signalCleanupPause, hidle]
  · rfl

/-- Witness for the amended C8 at a concrete trigger. -/
theorem pause_file_direct_write_witness :
    idleSt.eventSet = true
    ∧ (signalCleanupPause "sc2" 2 none "tk" 9 idleSt).ops
      = [FOp.openWrite pausePath
          (FContent.jsonPause (pausePayload "tk" "sc2" 2 none 9))]
    ∧ (pausePayload "tk" "sc2" 2 none 9).map Prod.fst
      = ["token", "scenario", "phase", "stage", "blockHash", "timestamp"] := by
  have h := pause_file_direct_write idleSt "sc2" 2 none "tk" 9 rfl
  refine ⟨rfl, ?_, h.2⟩
  have h1 := h.1
  simpa [idleSt] using h1

/-- Witness for C2 at two concrete transactions for different groups. -/
theorem batch_isolation_witness :
    (("a", "t1", "testing") : GrpKey) ≠ ("b", "t2", "testing")
    ∧ (runB initB
        ([TxEv.mk "0x01" "i1" 10].map (BEvent.tx ("a", "t1", "testing"))
          ++ ([TxEv.mk "0x02" "i2" 20].map (BEvent.tx ("b", "t2", "testing"))
            ++ [BEvent.quiet 200]))).2
      = [(("a", "t1", "testing"), ["0x01"]),
         (("b", "t2", "testing"), ["0x02"])] := by
  refine ⟨by decide, ?_⟩
  have h := batch_isolation ("a", "t1", "testing") ("b", "t2", "testing")
    [TxEv.mk "0x01" "i1" 10] [TxEv.mk "0x02" "i2" 20] 200
    (by decide) (by simp) (by simp) (by decide)
  simpa using h
